import Mathlib

/-!
Verification of the RAG-Pipeline-with-POML repository: a shallow embedding of
`rag_ingestion/ingest_documents.py` and `chatbot/prompt_renderer.py`, with
theorems settling the specification claims.

External collaborators (the PDF reader, the langchain text splitter, the poml
template engine, the ChromaDB client) are modelled as function parameters or as
an explicit operation trace; the repository's own code is translated directly.
-/

/-! ## Python decimal formatting

`f"{i}"` and `f"{i:04d}"` print a natural number in decimal, the latter
left-padded with zeros to a minimum width of 4.  `natDigitsAux` peels decimal
digits with an explicit fuel bound so that the definition reduces in the
kernel. -/

/-- Decimal digits of `n` (big-endian), empty for `n = 0`; `fuel ≥ n` suffices. -/
def natDigitsAux : Nat → Nat → List Char
  | 0, _ => []
  | fuel + 1, n =>
    if n = 0 then [] else natDigitsAux fuel (n / 10) ++ [Nat.digitChar (n % 10)]

/-- Decimal representation of `n`, as Python `f"{n}"` prints it. -/
def natDecimal (n : Nat) : List Char :=
  if n = 0 then ['0'] else natDigitsAux n n

/-- Python `f"{n}"` as a string. -/
def pyDec (n : Nat) : String :=
  String.mk (natDecimal n)

/-- Python `f"{n:04d}"`: decimal digits left-padded with zeros to width 4. -/
def pad4 (n : Nat) : List Char :=
  List.replicate (4 - (natDecimal n).length) '0' ++ natDecimal n

/-- Python `f"{n:04d}"` as a string. -/
def pad4Str (n : Nat) : String :=
  String.mk (pad4 n)

/-- Value of a decimal digit character. -/
def decDigit (c : Char) : Nat :=
  c.toNat - 48

/-- Base-10 value of a big-endian digit string. -/
def digitsVal (l : List Char) : Nat :=
  List.foldl (fun a c => 10 * a + decDigit c) 0 l

theorem digitsVal_append_singleton (l : List Char) (c : Char) :
    digitsVal (l ++ [c]) = 10 * digitsVal l + decDigit c := by
  simp [digitsVal, List.foldl_append]

theorem decDigit_digitChar : ∀ d < 10, decDigit (Nat.digitChar d) = d := by
  decide

theorem digitsVal_natDigitsAux :
    ∀ fuel n : Nat, n ≤ fuel → digitsVal (natDigitsAux fuel n) = n := by
  intro fuel
  induction fuel with
  | zero =>
    intro n hn
    interval_cases n
    simp [natDigitsAux, digitsVal]
  | succ f ih =>
    intro n hn
    by_cases h0 : n = 0
    · simp [natDigitsAux, h0, digitsVal]
    · have hdiv : n / 10 ≤ f := by omega
      rw [natDigitsAux, if_neg h0, digitsVal_append_singleton, ih _ hdiv,
        decDigit_digitChar _ (Nat.mod_lt n (by omega))]
      omega

theorem digitsVal_natDecimal (n : Nat) : digitsVal (natDecimal n) = n := by
  by_cases h0 : n = 0
  · simp [natDecimal, h0, digitsVal, decDigit]
  · rw [natDecimal, if_neg h0, digitsVal_natDigitsAux n n (Nat.le_refl n)]

theorem digitsVal_replicate_zero_append (k : Nat) (l : List Char) :
    digitsVal (List.replicate k '0' ++ l) = digitsVal l := by
  induction k with
  | zero => simp
  | succ m ih =>
    have : List.replicate (m + 1) '0' = '0' :: List.replicate m '0' := rfl
    rw [this]
    simpa [digitsVal, decDigit] using ih

theorem digitsVal_pad4 (n : Nat) : digitsVal (pad4 n) = n := by
  rw [pad4, digitsVal_replicate_zero_append, digitsVal_natDecimal]

theorem pad4_injective : Function.Injective pad4 := by
  intro a b h
  have := congrArg digitsVal h
  rwa [digitsVal_pad4, digitsVal_pad4] at this

theorem pad4Str_injective : Function.Injective pad4Str := by
  intro a b h
  exact pad4_injective (congrArg String.data h)

/-! ## Chunk identifiers

`ids = [f"{collection_name}_chunk_{i:04d}" for i in range(len(chunks))]` in
`process_pdf` (ingest_documents.py). -/

/-- The identifier `f"{collection_name}_chunk_{i:04d}"` for chunk `i`. -/
def chunkId (collection_name : String) (i : Nat) : String :=
  collection_name ++ "_chunk_" ++ pad4Str i

theorem chunkId_injective (c : String) : Function.Injective (chunkId c) := by
  intro a b h
  have hd := congrArg String.data h
  simp only [chunkId, String.data_append] at hd
  have h1 := List.append_cancel_left hd
  exact pad4Str_injective (String.ext h1)

/-! ## Text extraction (`extract_text_from_pdf`)

A page's raw extracted text is modelled as a list of `PChar`: characters the
page text contains.  `PChar.valid c` is an ordinary character; `PChar.invalid
code` is a character with no valid UTF-8 encoding (a lone surrogate code
point), which `page_text.encode("utf-8", errors="ignore").decode("utf-8")`
silently drops while every valid character round-trips unchanged. -/

/-- A character of raw page text: either a valid character or a code point
with no UTF-8 encoding. -/
inductive PChar where
  | valid (c : Char)
  | invalid (code : Nat)
deriving DecidableEq

/-- Raw text of one page, as returned by the external `page.extract_text()`. -/
abbrev PageText := List PChar

/-- What one character contributes after
`encode("utf-8", errors="ignore").decode("utf-8")`. -/
def cleanChar : PChar → Option Char
  | .valid c => some c
  | .invalid _ => none

/-- `page_text.encode("utf-8", errors="ignore").decode("utf-8")`: drops every
character with no UTF-8 encoding, keeps the rest unchanged. -/
def cleanText (l : PageText) : String :=
  String.mk (l.filterMap cleanChar)

/-- The page marker `f"\n--- Page {page_num + 1} ---\n"` prepended to each
non-empty page's cleaned text. -/
def pageMarker (n : Nat) : String :=
  "\n--- Page " ++ pyDec n ++ " ---\n"

/-- The `for page_num, page in enumerate(reader.pages)` loop of
`extract_text_from_pdf`, accumulating into `text`; a page whose raw text is
empty (falsy `page_text`) is skipped. -/
def extractLoop : List PageText → Nat → String → String
  | [], _, text => text
  | page :: rest, page_num, text =>
    if page.isEmpty then
      extractLoop rest (page_num + 1) text
    else
      extractLoop rest (page_num + 1) (text ++ (pageMarker (page_num + 1) ++ cleanText page))

/-- `extract_text_from_pdf`, as a function of the pages the external
`PdfReader` yields for the file. -/
def extract_text_from_pdf (pages : List PageText) : String :=
  extractLoop pages 0 ""

/-- Per-page contribution to the extracted text: nothing for a page with no
raw text, otherwise the 1-indexed marker followed by the cleaned text. -/
def pageContribution (p : Nat × PageText) : Option String :=
  if p.2.isEmpty then none else some (pageMarker (p.1 + 1) ++ cleanText p.2)

theorem string_join_cons (s : String) (l : List String) :
    String.join (s :: l) = s ++ String.join l := by
  have key : ∀ (m : List String) (a : String),
      List.foldl (fun r t => r ++ t) a m = a ++ List.foldl (fun r t => r ++ t) "" m := by
    intro m
    induction m with
    | nil => intro a; simp
    | cons x xs ih =>
      intro a
      simp only [List.foldl_cons]
      rw [ih (a ++ x), ih ("" ++ x)]
      simp [String.append_assoc]
  simp only [String.join, List.foldl_cons]
  rw [key l ("" ++ s)]
  simp

theorem extractLoop_closed_form :
    ∀ (pages : List PageText) (k : Nat) (text : String),
      extractLoop pages k text =
        text ++ String.join ((List.enumFrom k pages).filterMap pageContribution) := by
  intro pages
  induction pages with
  | nil => intro k text; simp [extractLoop, String.join]
  | cons page rest ih =>
    intro k text
    by_cases hp : page.isEmpty
    · rw [extractLoop, if_pos hp, ih (k + 1) text]
      simp [List.enumFrom, pageContribution, hp]
    · rw [extractLoop, if_neg hp, ih (k + 1)]
      have : (List.enumFrom k (page :: rest)).filterMap pageContribution =
          (pageMarker (k + 1) ++ cleanText page) ::
            (List.enumFrom (k + 1) rest).filterMap pageContribution := by
        simp [List.enumFrom, pageContribution, hp]
      rw [this, string_join_cons, String.append_assoc]

/-- Closed form of the extractor: the concatenation, in page order, of each
non-empty page's marker-plus-cleaned-text contribution. -/
theorem extract_text_from_pdf_eq (pages : List PageText) :
    extract_text_from_pdf pages =
      String.join ((List.enumFrom 0 pages).filterMap pageContribution) := by
  rw [extract_text_from_pdf, extractLoop_closed_form]
  simp

/-! ## Python string helpers used by the embedding -/

/-- ASCII whitespace as Python `str.strip()` treats it (Unicode-only space
characters are not modelled; no claim depends on them). -/
def pyIsSpace (c : Char) : Bool :=
  c = ' ' || c = '\t' || c = '\n' || c = '\r' || c = '\x0b' || c = '\x0c'

/-- Python `s.strip()`. -/
def pyStrip (s : String) : String :=
  String.mk (((s.data.dropWhile pyIsSpace).reverse.dropWhile pyIsSpace).reverse)

/-- `os.path.basename`: the component after the last slash. -/
def basename (p : String) : String :=
  String.mk ((p.data.reverse.takeWhile (fun c => c ≠ '/')).reverse)

/-- ASCII single quote, written by code point. -/
def squote : String :=
  String.singleton (Char.ofNat 39)

/-- Python `repr` of a plain identifier-like string (no escaping needed). -/
def pyStrRepr (s : String) : String :=
  squote ++ s ++ squote

/-- Python `repr` of a list of such strings, as interpolated by an f-string. -/
def pyListRepr (l : List String) : String :=
  "[" ++ String.intercalate ", " (l.map pyStrRepr) ++ "]"

/-! ## Prompt renderer (`chatbot/prompt_renderer.py`)

The poml template engine is external: each render operation takes it as a
function parameter mapping the built context to the first rendered message's
text content. -/

/-- The `ANSWER_TECHNIQUES` module constant, in insertion order. -/
def ANSWER_TECHNIQUES : List (String × String) :=
  [("zero_shot", "Zero-Shot"),
   ("few_shot", "Few-Shot"),
   ("cot", "Chain of Thought"),
   ("advanced", "Constrained-Guided Generation")]

/-- `list(ANSWER_TECHNIQUES.keys())`. -/
def answerTechniqueKeys : List String :=
  ANSWER_TECHNIQUES.map Prod.fst

/-- `get_answer_techniques()`: returns the `ANSWER_TECHNIQUES` mapping. -/
def get_answer_techniques : List (String × String) :=
  ANSWER_TECHNIQUES

/-- The context mapping built by `render_answer_prompt` and passed to `poml`. -/
structure AnswerContext where
  technique : String
  question : String
  context : String
  language : String
  conversation_context : String
deriving DecidableEq

/-- `render_answer_prompt`: raises `ValueError` (modelled as `Except.error`)
before any rendering when `technique` is not an `ANSWER_TECHNIQUES` key,
otherwise renders the answer template (`pomlFn`, external) on the built
context. -/
def render_answer_prompt (pomlFn : AnswerContext → String)
    (technique question context language : String)
    (conversation_context : String := "") : Except String String :=
  if technique ∈ answerTechniqueKeys then
    Except.ok (pomlFn ⟨technique, question, context, language, conversation_context⟩)
  else
    Except.error ("Invalid technique: " ++ technique ++ ". Must be one of " ++
      pyListRepr answerTechniqueKeys)

/-- One response record passed to `render_judge_prompt`: a Python dict whose
keys `model_name`, `technique_name`, `response` may each be absent (`none`)
or present with a string value. -/
structure ResponseRecord where
  model_name : Option String
  technique_name : Option String
  response : Option String
deriving DecidableEq

/-- One entry of the derived `responses_list`. -/
structure LabeledResponse where
  label : String
  response : String
deriving DecidableEq

/-- Python `a or b` for `a` an optional string: `b` when `a` is absent or
falsy (the empty string). -/
def orFalsy (a : Option String) (b : String) : String :=
  match a with
  | some s => if s = "" then b else s
  | none => b

/-- The `for idx, item in enumerate(responses, 1)` loop of
`render_judge_prompt` building `responses_list`. -/
def buildResponsesList : Nat → List ResponseRecord → List LabeledResponse
  | _, [] => []
  | idx, item :: rest =>
    { label := orFalsy item.model_name
        (orFalsy item.technique_name ("Item " ++ pyDec idx)),
      response := item.response.getD "" } :: buildResponsesList (idx + 1) rest

/-- The context mapping built by `render_judge_prompt` and passed to `poml`. -/
structure JudgeContext where
  question : String
  comparison_type : String
  responses_list : List LabeledResponse
deriving DecidableEq

/-- `render_judge_prompt`: builds `responses_list` from the records and
renders the judge template (`pomlFn`, external) on the built context. -/
def render_judge_prompt (pomlFn : JudgeContext → String)
    (question : String) (responses : List ResponseRecord)
    (comparison_type : String) : String :=
  pomlFn ⟨question, comparison_type, buildResponsesList 1 responses⟩

/-! ## Ingestion orchestrator (`rag_ingestion/ingest_documents.py`)

The ChromaDB client is modelled by an explicit operation trace (`StoreOp`)
plus a semantics (`applyOp`) over an association-list store.  The trace type
also has delete operations — ChromaDB offers them — so that "the orchestrator
never deletes" is a statement about the emitted trace, not a tautology of the
type. -/

/-- Per-chunk metadata record `{"source": ..., "chunk_index": i}`. -/
structure ChunkMeta where
  source : String
  chunk_index : Nat
deriving DecidableEq

/-- One record as held by a collection: identifier, metadata, document text. -/
structure StoredRecord where
  id : String
  metadata : ChunkMeta
  document : String
deriving DecidableEq

/-- Operations the script can issue against the ChromaDB client. -/
inductive StoreOp where
  | getOrCreate (name : String) (description : String) (created : String)
  | add (name : String) (ids : List String) (metadatas : List ChunkMeta)
      (documents : List String)
  | deleteCollection (name : String)
  | deleteRecords (name : String) (ids : List String)
deriving DecidableEq

/-- Observable events of an ingestion run: printed warnings and store
operations. -/
inductive Event where
  | warn (msg : String)
  | store (op : StoreOp)
deriving DecidableEq

/-- The vector store: collection name to its records, in creation order. -/
abbrev Store := List (String × List StoredRecord)

/-- Records of collection `name`, if the collection exists. -/
def storeLookup (s : Store) (name : String) : Option (List StoredRecord) :=
  (s.find? (fun p => p.1 == name)).map Prod.snd

/-- Replace the records of collection `name`. -/
def storeReplace (s : Store) (name : String) (recs : List StoredRecord) : Store :=
  s.map (fun p => if p.1 == name then (p.1, recs) else p)

/-- `zip` of the three parallel lists passed to `collection.add` into records. -/
def zipRecords : List String → List ChunkMeta → List String → List StoredRecord
  | id :: ids, m :: ms, d :: ds => ⟨id, m, d⟩ :: zipRecords ids ms ds
  | _, _, _ => []

/-- Does some id of the batch already exist in the collection? -/
def idsClash (recs : List StoredRecord) (ids : List String) : Bool :=
  ids.any (fun i => recs.any (fun r => r.id == i))

/-- ChromaDB semantics of one operation.  `get_or_create_collection` leaves an
existing collection untouched; `add` raises `DuplicateIDError` when a batch id
repeats or already exists, else appends the batch. -/
def applyOp (s : Store) : StoreOp → Except String Store
  | .getOrCreate name _description _created =>
    if (s.find? (fun p => p.1 == name)).isSome then Except.ok s
    else Except.ok (s ++ [(name, [])])
  | .add name ids metadatas documents =>
    match storeLookup s name with
    | none => Except.error ("Collection " ++ name ++ " does not exist")
    | some recs =>
      if decide (List.Nodup ids) && !idsClash recs ids then
        Except.ok (storeReplace s name (recs ++ zipRecords ids metadatas documents))
      else
        Except.error "DuplicateIDError"
  | .deleteCollection name =>
    Except.ok (s.filter (fun p => !(p.1 == name)))
  | .deleteRecords name ids =>
    match storeLookup s name with
    | none => Except.error ("Collection " ++ name ++ " does not exist")
    | some recs =>
      Except.ok (storeReplace s name (recs.filter (fun r => !(ids.contains r.id))))

/-- Run the store operations of an event trace in order, stopping at the
first raised error. -/
def applyEvents (s : Store) : List Event → Except String Store
  | [] => Except.ok s
  | .warn _ :: rest => applyEvents s rest
  | .store op :: rest =>
    match applyOp s op with
    | .ok s2 => applyEvents s2 rest
    | .error e => Except.error e

/-- `process_pdf(pdf_path, collection_name)`: extract (via the external
`PdfReader`, `readPdf`), warn-and-return on whitespace-only text, chunk (via
the external splitter, `split`), then get-or-create the collection and add
one id, one metadata record and one document per chunk as a single batch.
`now` stands for `str(datetime.now())`. -/
def process_pdf (readPdf : String → Except String (List PageText))
    (split : String → List String) (now : String)
    (pdf_path collection_name : String) : Except String (List Event) :=
  match readPdf pdf_path with
  | .error e => Except.error e
  | .ok pages =>
    let text := extract_text_from_pdf pages
    if pyStrip text = "" then
      Except.ok [Event.warn ("Warning: No text extracted from " ++ pdf_path)]
    else
      let chunks := split text
      let ids := (List.range chunks.length).map (chunkId collection_name)
      let metadatas := (List.range chunks.length).map
        (fun i => ChunkMeta.mk (basename pdf_path) i)
      Except.ok
        [Event.store (StoreOp.getOrCreate collection_name
          ("Code documentation collection for " ++ collection_name) now),
         Event.store (StoreOp.add collection_name ids metadatas chunks)]

/-- The `PDF_COLLECTION_MAP` module constant, in insertion order. -/
def PDF_COLLECTION_MAP : List (String × String) :=
  [("Python.pdf", "python_book"),
   ("Java.pdf", "java_book"),
   ("Javascript.pdf", "javascript_book")]

/-- The `for pdf_name, collection_name in PDF_COLLECTION_MAP.items()` loop of
`main`: skip a missing file with a warning, otherwise process it;
`fileExists` models `pdf_path.exists()`. -/
def runEntries (fileExists : String → Bool)
    (readPdf : String → Except String (List PageText))
    (split : String → List String) (now source_dir : String) :
    List (String × String) → Except String (List Event)
  | [] => Except.ok []
  | (pdf_name, collection_name) :: rest =>
    let pdf_path := source_dir ++ "/" ++ pdf_name
    if fileExists pdf_path then
      match process_pdf readPdf split now pdf_path collection_name with
      | .error e => Except.error e
      | .ok evs =>
        match runEntries fileExists readPdf split now source_dir rest with
        | .error e => Except.error e
        | .ok evs2 => Except.ok (evs ++ evs2)
    else
      match runEntries fileExists readPdf split now source_dir rest with
      | .error e => Except.error e
      | .ok evs2 =>
        Except.ok (Event.warn ("Warning: " ++ pdf_path ++ " not found, skipping...") :: evs2)

/-- `main()`: run the loop over `PDF_COLLECTION_MAP`.  `source_dir` models the
`Path(__file__).parent.parent / "ingest_files"` directory, which depends on
the install location. -/
def ingestMain (fileExists : String → Bool)
    (readPdf : String → Except String (List PageText))
    (split : String → List String) (now source_dir : String) :
    Except String (List Event) :=
  runEntries fileExists readPdf split now source_dir PDF_COLLECTION_MAP

/-- Is the event a delete or clear operation on the store? -/
def isDeleteEvent : Event → Bool
  | .store (.deleteCollection _) => true
  | .store (.deleteRecords _ _) => true
  | _ => false

/-! ## Helper lemmas -/

theorem buildResponsesList_length (rs : List ResponseRecord) :
    ∀ k : Nat, (buildResponsesList k rs).length = rs.length := by
  induction rs with
  | nil => intro k; rfl
  | cons r rest ih => intro k; simp [buildResponsesList, ih]

theorem buildResponsesList_get (rs : List ResponseRecord) :
    ∀ (k i : Nat) (h : i < rs.length)
      (h2 : i < (buildResponsesList k rs).length),
      (buildResponsesList k rs).get ⟨i, h2⟩ =
        { label := orFalsy (rs.get ⟨i, h⟩).model_name
            (orFalsy (rs.get ⟨i, h⟩).technique_name ("Item " ++ pyDec (k + i))),
          response := (rs.get ⟨i, h⟩).response.getD "" } := by
  induction rs with
  | nil => intro k i h h2; exact absurd h (by simp)
  | cons r rest ih =>
    intro k i h h2
    cases i with
    | zero => simp [buildResponsesList]
    | succ j =>
      have hj : j < rest.length := by simpa using h
      have hj2 : j < (buildResponsesList (k + 1) rest).length := by
        rw [buildResponsesList_length]; exact hj
      have step : (buildResponsesList k (r :: rest)).get ⟨j + 1, h2⟩ =
          (buildResponsesList (k + 1) rest).get ⟨j, hj2⟩ := rfl
      have tl : (r :: rest).get ⟨j + 1, h⟩ = rest.get ⟨j, hj⟩ := rfl
      rw [step, tl, show k + (j + 1) = k + 1 + j from by omega]
      exact ih (k + 1) j hj hj2

/-! ## Claims about the prompt renderer -/

/-- Claim C1: for every technique string not among the four recognized keys,
`render_answer_prompt` returns an invalid-argument error before any rendering
occurs (the result is the same for every template engine), and the error
message names the offending technique and lists exactly the four valid keys;
for a technique in the set no error is raised and the rendered text is
returned. -/
theorem claim_C1 (pomlFn : AnswerContext → String)
    (technique question context language conversation_context : String) :
    answerTechniqueKeys = ["zero_shot", "few_shot", "cot", "advanced"] ∧
    (technique ∉ answerTechniqueKeys →
      ∀ g : AnswerContext → String,
        render_answer_prompt g technique question context language conversation_context =
          Except.error ("Invalid technique: " ++ technique ++ ". Must be one of " ++
            pyListRepr answerTechniqueKeys)) ∧
    (technique ∈ answerTechniqueKeys →
      render_answer_prompt pomlFn technique question context language conversation_context =
        Except.ok (pomlFn ⟨technique, question, context, language, conversation_context⟩)) := by
  refine ⟨rfl, ?_, ?_⟩
  · intro hnot g
    rw [render_answer_prompt, if_neg hnot]
  · intro hin
    rw [render_answer_prompt, if_pos hin]

/-- Concrete instance of C1: `"invalid_tech"` is rejected with the message
listing the four keys, `"zero_shot"` is accepted. -/
theorem claim_C1_witness :
    render_answer_prompt (fun _ => "rendered") "invalid_tech" "q" "ctx" "en" "" =
      Except.error ("Invalid technique: invalid_tech. Must be one of " ++
        pyListRepr ["zero_shot", "few_shot", "cot", "advanced"]) ∧
    render_answer_prompt (fun _ => "rendered") "zero_shot" "q" "ctx" "en" "" =
      Except.ok "rendered" := by
  have h := claim_C1 (fun _ => "rendered") "invalid_tech" "q" "ctx" "en" ""
  have h2 := claim_C1 (fun _ => "rendered") "zero_shot" "q" "ctx" "en" ""
  exact ⟨(h.2.1 (by decide) _).trans (congrArg Except.error (by decide)),
    h2.2.2 (by decide)⟩

/-- Claim C2: the derived `responses_list` has one entry per input record in
order; the entry at 0-based position `i` (1-indexed position `i + 1`) is
labeled by the record's model name, else its technique name, else the fallback
`"Item {i+1}"`, paired with the record's response text or `""`; in particular
the three-record example yields labels `"gpt"`, `"cot"`, `"Item 3"` with empty
responses. -/
theorem claim_C2 (responses : List ResponseRecord) :
    (buildResponsesList 1 responses).length = responses.length ∧
    (∀ (i : Nat) (h : i < responses.length)
       (h2 : i < (buildResponsesList 1 responses).length),
       (buildResponsesList 1 responses).get ⟨i, h2⟩ =
         { label := orFalsy (responses.get ⟨i, h⟩).model_name
             (orFalsy (responses.get ⟨i, h⟩).technique_name
               ("Item " ++ pyDec (i + 1))),
           response := ((responses.get ⟨i, h⟩).response).getD "" }) ∧
    buildResponsesList 1
        [{ model_name := some "gpt", technique_name := none, response := none },
         { model_name := none, technique_name := some "cot", response := none },
         { model_name := none, technique_name := none, response := none }] =
      [{ label := "gpt", response := "" },
       { label := "cot", response := "" },
       { label := "Item 3", response := "" }] := by
  refine ⟨buildResponsesList_length responses 1, ?_, by decide⟩
  intro i h h2
  rw [buildResponsesList_get responses 1 i h h2, show 1 + i = i + 1 from by omega]

/-- Concrete instance of C2 at the example input, entry at position 2. -/
theorem claim_C2_witness :
    (buildResponsesList 1
        [{ model_name := some "gpt", technique_name := none, response := none },
         { model_name := none, technique_name := some "cot", response := none },
         { model_name := none, technique_name := none, response := none }]).get
      ⟨2, by decide⟩ = { label := "Item 3", response := "" } := by
  have h := (claim_C2
    [{ model_name := some "gpt", technique_name := none, response := none },
     { model_name := none, technique_name := some "cot", response := none },
     { model_name := none, technique_name := none, response := none }]).2.1
    2 (by decide) (by decide)
  exact h.trans (by decide)

/-- Claim C6: `get_answer_techniques()` returns exactly the four-entry
mapping from technique key to display label; the function is pure, so this
holds regardless of call order or prior renders. -/
theorem claim_C6 :
    get_answer_techniques =
      [("zero_shot", "Zero-Shot"),
       ("few_shot", "Few-Shot"),
       ("cot", "Chain of Thought"),
       ("advanced", "Constrained-Guided Generation")] := rfl

/-- Claim C9: label selection uses truthiness, not key presence: a record
whose `model_name` is present but empty is labeled by its `technique_name`
when that is truthy, else by the positional fallback; the empty model name is
never the label. -/
theorem claim_C9 (rs : List ResponseRecord) (i : Nat)
    (h : i < rs.length) (h2 : i < (buildResponsesList 1 rs).length)
    (hm : (rs.get ⟨i, h⟩).model_name = some "") :
    ((buildResponsesList 1 rs).get ⟨i, h2⟩).label =
      (match (rs.get ⟨i, h⟩).technique_name with
       | some t => if t = "" then "Item " ++ pyDec (i + 1) else t
       | none => "Item " ++ pyDec (i + 1)) := by
  rw [buildResponsesList_get rs 1 i h h2]
  simp only [hm, orFalsy, if_pos rfl, show 1 + i = i + 1 from by omega]
  cases (rs.get ⟨i, h⟩).technique_name <;> rfl

/-- Concrete instance of C9: `model_name = ""` with `technique_name = "cot"`
labels the entry `"cot"`. -/
theorem claim_C9_witness :
    ((buildResponsesList 1
        [{ model_name := some "", technique_name := some "cot",
           response := none }]).get ⟨0, by decide⟩).label = "cot" := by
  have h := claim_C9
    [{ model_name := some "", technique_name := some "cot", response := none }]
    0 (by decide) (by decide) (by decide)
  exact h.trans (by decide)

/-! ## Claims about text extraction -/

theorem cleanText_append (a b : PageText) :
    cleanText (a ++ b) = cleanText a ++ cleanText b := by
  apply String.ext
  simp [cleanText, List.filterMap_append]

theorem cleanText_invalid_cons (code : Nat) (b : PageText) :
    cleanText (PChar.invalid code :: b) = cleanText b := by
  apply String.ext
  simp [cleanText, cleanChar]

theorem extractLoop_page_congr (x y : PageText)
    (hclean : cleanText x = cleanText y) (hempty : x.isEmpty = y.isEmpty) :
    ∀ (p1 p2 : List PageText) (k : Nat) (t : String),
      extractLoop (p1 ++ x :: p2) k t = extractLoop (p1 ++ y :: p2) k t := by
  intro p1
  induction p1 with
  | nil =>
    intro p2 k t
    rw [List.nil_append, List.nil_append, extractLoop, extractLoop, hclean, hempty]
  | cons p ps ih =>
    intro p2 k t
    rw [List.cons_append, List.cons_append, extractLoop, extractLoop]
    by_cases hp : p.isEmpty
    · rw [if_pos hp, if_pos hp, ih]
    · rw [if_neg hp, if_neg hp, ih]

/-- Claim C7: the extracted text of a PDF is, in page order, the
concatenation of a `"--- Page N ---"` marker (N the page's 1-indexed
position) followed by that page's cleaned text, one such block per page whose
raw extracted text is non-empty; a page with no extractable text contributes
no marker and no text. -/
theorem claim_C7 (pages : List PageText) :
    extract_text_from_pdf pages =
      String.join ((List.enumFrom 0 pages).filterMap
        (fun p => if p.2.isEmpty then none
          else some ("\n--- Page " ++ (pyDec (p.1 + 1) ++ (" ---\n" ++ cleanText p.2))))) := by
  rw [extract_text_from_pdf_eq]
  have hfun : pageContribution =
      (fun p : Nat × PageText => if p.2.isEmpty then none
        else some ("\n--- Page " ++ (pyDec (p.1 + 1) ++ (" ---\n" ++ cleanText p.2)))) := by
    funext p
    by_cases hp : p.2.isEmpty
    · simp [pageContribution, hp]
    · simp [pageContribution, hp, pageMarker, String.append_assoc]
  rw [hfun]

/-- Claim C8: cleaning drops a character with no valid encoding silently (no
substitute character can appear: every output character occurs as a valid
input character), keeps every valid character unchanged, and the drop never
affects the extraction of the rest of the document. -/
theorem claim_C8 (l1 l2 : PageText) (code : Nat) (cs : List Char)
    (l : PageText) (pages1 pages2 : List PageText) :
    cleanText (l1 ++ PChar.invalid code :: l2) = cleanText (l1 ++ l2) ∧
    cleanText (cs.map PChar.valid) = String.mk cs ∧
    (∀ c : Char, c ∈ (cleanText l).data → PChar.valid c ∈ l) ∧
    (l1 ++ l2 ≠ [] →
      extract_text_from_pdf (pages1 ++ (l1 ++ PChar.invalid code :: l2) :: pages2) =
        extract_text_from_pdf (pages1 ++ (l1 ++ l2) :: pages2)) := by
  have hdrop : cleanText (l1 ++ PChar.invalid code :: l2) = cleanText (l1 ++ l2) := by
    rw [cleanText_append, cleanText_append, cleanText_invalid_cons]
  refine ⟨hdrop, ?_, ?_, ?_⟩
  · apply String.ext
    show List.filterMap cleanChar (cs.map PChar.valid) = cs
    rw [List.filterMap_map, show cleanChar ∘ PChar.valid = some from funext fun c => rfl]
    simp
  · intro c hc
    simp only [cleanText, List.mem_filterMap] at hc
    obtain ⟨x, hx, hcx⟩ := hc
    cases x with
    | valid c2 =>
      cases hcx
      exact hx
    | invalid n => exact absurd hcx (by simp [cleanChar])
  · intro hne
    have hempty : (l1 ++ PChar.invalid code :: l2).isEmpty = (l1 ++ l2).isEmpty := by
      cases l1 <;> cases l2 <;> simp_all
    exact extractLoop_page_congr _ _ hdrop hempty pages1 pages2 0 ""

/-- Concrete instance of C8: an undecodable character between `'a'` and `'b'`
is dropped and the surrounding document extracts identically. -/
theorem claim_C8_witness :
    cleanText [PChar.valid 'a', PChar.invalid 55296, PChar.valid 'b'] =
      cleanText [PChar.valid 'a', PChar.valid 'b'] ∧
    extract_text_from_pdf [[PChar.valid 'a', PChar.invalid 55296, PChar.valid 'b']] =
      extract_text_from_pdf [[PChar.valid 'a', PChar.valid 'b']] := by
  have h := claim_C8 [PChar.valid 'a'] [PChar.valid 'b'] 55296 ['x'] [] [] []
  exact ⟨h.1, h.2.2.2 (by decide)⟩

/-! ## Store lemmas -/

theorem zipRecords_length :
    ∀ (ids : List String) (ms : List ChunkMeta) (ds : List String),
      ids.length = ds.length → ms.length = ds.length →
      (zipRecords ids ms ds).length = ds.length := by
  intro ids
  induction ids with
  | nil =>
    intro ms ds h1 _
    cases ds with
    | nil => cases ms <;> rfl
    | cons d ds => exact absurd h1 (by simp)
  | cons i ids ih =>
    intro ms ds h1 h2
    cases ds with
    | nil => exact absurd h1 (by simp)
    | cons d ds =>
      cases ms with
      | nil => exact absurd h2 (by simp)
      | cons m ms =>
        simp only [zipRecords, List.length_cons]
        rw [ih ms ds (by simpa using h1) (by simpa using h2)]

theorem idsClash_nil (ids : List String) : idsClash [] ids = false := by
  induction ids with
  | nil => rfl
  | cons i ids ih => simp [idsClash, List.any_cons]

theorem storeLookup_append_of_some (s t : Store) (name : String)
    (recs : List StoredRecord) (h : storeLookup s name = some recs) :
    storeLookup (s ++ t) name = some recs := by
  unfold storeLookup at h ⊢
  cases hf : s.find? (fun p => p.1 == name) with
  | none => rw [hf] at h; exact absurd h (by simp)
  | some p =>
    rw [hf] at h
    rw [List.find?_append, hf]
    exact h

theorem storeLookup_replace_self (s : Store) (name : String)
    (r : List StoredRecord) :
    storeLookup (storeReplace s name r) name =
      (storeLookup s name).map (fun _ => r) := by
  induction s with
  | nil => rfl
  | cons p ps ih =>
    rw [show storeReplace (p :: ps) name r =
          (if p.1 == name then (p.1, r) else p) :: storeReplace ps name r from rfl]
    by_cases hp : p.1 = name
    · simp [storeLookup, hp]
    · simp only [storeLookup] at ih ⊢
      simp [hp, ih]

theorem storeLookup_replace_other (s : Store) (name cname : String)
    (r : List StoredRecord) (hne : cname ≠ name) :
    storeLookup (storeReplace s name r) cname = storeLookup s cname := by
  have hnc : ¬ (name = cname) := fun h => hne h.symm
  induction s with
  | nil => rfl
  | cons p ps ih =>
    rw [show storeReplace (p :: ps) name r =
          (if p.1 == name then (p.1, r) else p) :: storeReplace ps name r from rfl]
    by_cases hp : p.1 = name
    · simp only [storeLookup] at ih ⊢
      simp [hp, hnc, ih]
    · by_cases hc : p.1 = cname
      · simp [storeLookup, hp, hc, hne]
      · simp only [storeLookup] at ih ⊢
        simp [hp, hc, ih]

theorem applyEvents_cons_store (s : Store) (op : StoreOp) (rest : List Event) :
    applyEvents s (Event.store op :: rest) =
      match applyOp s op with
      | .ok s2 => applyEvents s2 rest
      | .error e => Except.error e := rfl

/-! ## Claims about the ingestion orchestrator -/

/-- Claim C3: on a document whose extracted text is non-whitespace,
`process_pdf` submits exactly one identifier, one metadata record
`{source, chunk_index}` and one text payload per chunk in a single `add`
batch; the identifier for chunk `i` is `"{collection}_chunk_{i:04d}"`, and
applying the trace to an empty store yields exactly one record per chunk. -/
theorem claim_C3 (readPdf : String → Except String (List PageText))
    (split : String → List String) (now pdf_path collection_name : String)
    (pages : List PageText)
    (hr : readPdf pdf_path = Except.ok pages)
    (ht : ¬ pyStrip (extract_text_from_pdf pages) = "") :
    ∃ ids metadatas,
      process_pdf readPdf split now pdf_path collection_name =
        Except.ok
          [Event.store (StoreOp.getOrCreate collection_name
            ("Code documentation collection for " ++ collection_name) now),
           Event.store (StoreOp.add collection_name ids metadatas
             (split (extract_text_from_pdf pages)))] ∧
      ids.length = (split (extract_text_from_pdf pages)).length ∧
      metadatas.length = (split (extract_text_from_pdf pages)).length ∧
      (∀ (i : Nat) (h2 : i < ids.length),
        ids.get ⟨i, h2⟩ = chunkId collection_name i) ∧
      (∀ (i : Nat) (h3 : i < metadatas.length),
        metadatas.get ⟨i, h3⟩ = ChunkMeta.mk (basename pdf_path) i) ∧
      ∃ recs,
        applyEvents []
          [Event.store (StoreOp.getOrCreate collection_name
            ("Code documentation collection for " ++ collection_name) now),
           Event.store (StoreOp.add collection_name ids metadatas
             (split (extract_text_from_pdf pages)))] =
          Except.ok [(collection_name, recs)] ∧
        recs.length = (split (extract_text_from_pdf pages)).length := by
  refine ⟨(List.range (split (extract_text_from_pdf pages)).length).map
      (chunkId collection_name),
    (List.range (split (extract_text_from_pdf pages)).length).map
      (fun i => ChunkMeta.mk (basename pdf_path) i),
    ?_, by simp, by simp, by intro i h2; simp, by intro i h3; simp, ?_⟩
  · simp only [process_pdf, hr]
    rw [if_neg ht]
  · have hnodup : List.Nodup ((List.range (split (extract_text_from_pdf pages)).length).map
        (chunkId collection_name)) :=
      (List.nodup_range _).map (chunkId_injective collection_name)
    have h1 : applyOp [] (StoreOp.getOrCreate collection_name
        ("Code documentation collection for " ++ collection_name) now) =
        Except.ok [(collection_name, [])] := rfl
    have h2 : storeLookup [(collection_name, [])] collection_name = some [] := by
      simp [storeLookup]
    have hcond : (decide (List.Nodup ((List.range
        (split (extract_text_from_pdf pages)).length).map (chunkId collection_name))) &&
        !idsClash [] ((List.range (split (extract_text_from_pdf pages)).length).map
          (chunkId collection_name))) = true := by
      rw [decide_eq_true hnodup, idsClash_nil]
      rfl
    have h3 : applyOp [(collection_name, [])]
        (StoreOp.add collection_name
          ((List.range (split (extract_text_from_pdf pages)).length).map
            (chunkId collection_name))
          ((List.range (split (extract_text_from_pdf pages)).length).map
            (fun i => ChunkMeta.mk (basename pdf_path) i))
          (split (extract_text_from_pdf pages))) =
        Except.ok [(collection_name,
          zipRecords
            ((List.range (split (extract_text_from_pdf pages)).length).map
              (chunkId collection_name))
            ((List.range (split (extract_text_from_pdf pages)).length).map
              (fun i => ChunkMeta.mk (basename pdf_path) i))
            (split (extract_text_from_pdf pages)))] := by
      simp only [applyOp, h2, hcond]
      simp [storeReplace]
    refine ⟨zipRecords
        ((List.range (split (extract_text_from_pdf pages)).length).map
          (chunkId collection_name))
        ((List.range (split (extract_text_from_pdf pages)).length).map
          (fun i => ChunkMeta.mk (basename pdf_path) i))
        (split (extract_text_from_pdf pages)), ?_, ?_⟩
    · simp only [applyEvents_cons_store, h1, h3]
      rfl
    · exact zipRecords_length _ _ _ (by simp) (by simp)

/-- Concrete instance of C3: one page `"a"`, identity chunker. -/
theorem claim_C3_witness :
    ∃ ids metadatas,
      process_pdf (fun _ => Except.ok [[PChar.valid 'a']]) (fun t => [t]) "ts"
          "docs/Python.pdf" "python_book" =
        Except.ok
          [Event.store (StoreOp.getOrCreate "python_book"
            ("Code documentation collection for " ++ "python_book") "ts"),
           Event.store (StoreOp.add "python_book" ids metadatas
             [extract_text_from_pdf [[PChar.valid 'a']]])] ∧
      ids.length = 1 ∧ metadatas.length = 1 ∧
      (∀ (i : Nat) (h2 : i < ids.length),
        ids.get ⟨i, h2⟩ = chunkId "python_book" i) := by
  obtain ⟨ids, metadatas, hproc, hlen1, hlen2, hid, _, _⟩ :=
    claim_C3 (fun _ => Except.ok [[PChar.valid 'a']]) (fun t => [t]) "ts"
      "docs/Python.pdf" "python_book" [[PChar.valid 'a']] rfl (by decide)
  exact ⟨ids, metadatas, hproc, by simpa using hlen1, by simpa using hlen2, hid⟩

/-- Claim C10: within one batch the generated identifiers are pairwise
distinct for every chunk count (distinct indices give distinct identifier
strings, also at 10000 and beyond), and the i-th identifier and i-th
metadata record both refer to chunk index i. -/
theorem claim_C10 (collection_name source : String) (n : Nat) :
    ((List.range n).map (chunkId collection_name)).Nodup ∧
    (∀ i j : Nat, i ≠ j → chunkId collection_name i ≠ chunkId collection_name j) ∧
    (∀ (i : Nat) (h2 : i < ((List.range n).map (chunkId collection_name)).length),
      ((List.range n).map (chunkId collection_name)).get ⟨i, h2⟩ =
        chunkId collection_name i) ∧
    (∀ (i : Nat) (h3 : i < ((List.range n).map
        (fun i => ChunkMeta.mk source i)).length),
      ((List.range n).map (fun i => ChunkMeta.mk source i)).get ⟨i, h3⟩ =
        ChunkMeta.mk source i) := by
  refine ⟨(List.nodup_range n).map (chunkId_injective collection_name),
    fun i j hij h => hij (chunkId_injective collection_name h),
    ?_, ?_⟩
  · intro i h2; simp
  · intro i h3; simp

/-- Concrete instance of C10: chunk indices 10000 and 2 give distinct
identifiers. -/
theorem claim_C10_witness :
    chunkId "python_book" 10000 ≠ chunkId "python_book" 2 :=
  (claim_C10 "python_book" "Python.pdf" 0).2.1 10000 2 (by decide)

/-- The collection a store operation addresses. -/
def storeOpName : StoreOp → String
  | .getOrCreate name _ _ => name
  | .add name _ _ _ => name
  | .deleteCollection name => name
  | .deleteRecords name _ => name

theorem process_pdf_store_names (readPdf : String → Except String (List PageText))
    (split : String → List String) (now pdf_path collection_name : String)
    (evs : List Event)
    (h : process_pdf readPdf split now pdf_path collection_name = Except.ok evs) :
    ∀ op, Event.store op ∈ evs → storeOpName op = collection_name := by
  cases hrp : readPdf pdf_path with
  | error e =>
    simp only [process_pdf, hrp] at h
    exact Except.noConfusion h
  | ok pages =>
    simp only [process_pdf, hrp] at h
    by_cases hstrip : pyStrip (extract_text_from_pdf pages) = ""
    · rw [if_pos hstrip] at h
      have hevs : evs = [Event.warn ("Warning: No text extracted from " ++ pdf_path)] := by
        simpa using h.symm
      subst hevs
      intro op hop
      simp at hop
    · rw [if_neg hstrip] at h
      have hevs : evs =
          [Event.store (StoreOp.getOrCreate collection_name
            ("Code documentation collection for " ++ collection_name) now),
           Event.store (StoreOp.add collection_name
             ((List.range (split (extract_text_from_pdf pages)).length).map
               (chunkId collection_name))
             ((List.range (split (extract_text_from_pdf pages)).length).map
               (fun i => ChunkMeta.mk (basename pdf_path) i))
             (split (extract_text_from_pdf pages)))] := by
        simpa using h.symm
      subst hevs
      intro op hop
      simp only [List.mem_cons, List.mem_singleton] at hop
      rcases hop with h1 | h1 | h1
      · cases h1; rfl
      · cases h1; rfl
      · simp at h1

theorem runEntries_store_names :
    ∀ (entries : List (String × String)) (fe : String → Bool)
      (rp : String → Except String (List PageText)) (sp : String → List String)
      (now sd : String) (evs : List Event),
      runEntries fe rp sp now sd entries = Except.ok evs →
      ∀ op, Event.store op ∈ evs → storeOpName op ∈ entries.map Prod.snd := by
  intro entries
  induction entries with
  | nil =>
    intro fe rp sp now sd evs h op hop
    have : evs = [] := by simpa [runEntries] using h.symm
    subst this
    simp at hop
  | cons e rest ih =>
    obtain ⟨pdf_name, coll⟩ := e
    intro fe rp sp now sd evs h op hop
    simp only [runEntries] at h
    by_cases hex : fe (sd ++ "/" ++ pdf_name) = true
    · rw [if_pos hex] at h
      cases hp : process_pdf rp sp now (sd ++ "/" ++ pdf_name) coll with
      | error e2 => rw [hp] at h; simp at h
      | ok evs1 =>
        rw [hp] at h
        cases hr : runEntries fe rp sp now sd rest with
        | error e2 => rw [hr] at h; simp at h
        | ok evs2 =>
          rw [hr] at h
          have hevs : evs = evs1 ++ evs2 := by simpa using h.symm
          subst hevs
          rcases List.mem_append.mp hop with h1 | h2
          · have := process_pdf_store_names rp sp now (sd ++ "/" ++ pdf_name) coll evs1 hp op h1
            simp [this]
          · have := ih fe rp sp now sd evs2 hr op h2
            simpa using Or.inr this
    · rw [if_neg hex] at h
      cases hr : runEntries fe rp sp now sd rest with
      | error e2 => rw [hr] at h; simp at h
      | ok evs2 =>
        rw [hr] at h
        have hevs : evs = Event.warn ("Warning: " ++ (sd ++ "/" ++ pdf_name) ++
            " not found, skipping...") :: evs2 := by simpa using h.symm
        subst hevs
        simp only [List.mem_cons] at hop
        rcases hop with h1 | h2
        · simp at h1
        · have := ih fe rp sp now sd evs2 hr op h2
          simpa using Or.inr this

/-- Claim C4: for a mapping entry whose source PDF path does not exist, the
run logs exactly one warning for it, performs no extraction, chunking or
storage operation for that entry (the corresponding collection is never
created or touched), continues with the remaining entries unchanged, and the
entry never causes the run to raise: the run's outcome is exactly the
remaining entries' outcome with the warning prepended. -/
theorem claim_C4 (fileExists : String → Bool)
    (readPdf : String → Except String (List PageText))
    (split : String → List String) (now source_dir pdf_name collection_name : String)
    (rest : List (String × String))
    (hmiss : ¬ fileExists (source_dir ++ "/" ++ pdf_name) = true) :
    (runEntries fileExists readPdf split now source_dir
        ((pdf_name, collection_name) :: rest) =
      (runEntries fileExists readPdf split now source_dir rest).map
        (fun evs => Event.warn ("Warning: " ++ (source_dir ++ "/" ++ pdf_name) ++
          " not found, skipping...") :: evs)) ∧
    (∀ evs, runEntries fileExists readPdf split now source_dir
        ((pdf_name, collection_name) :: rest) = Except.ok evs →
      collection_name ∉ rest.map Prod.snd →
      ∀ op, Event.store op ∈ evs → ¬ storeOpName op = collection_name) := by
  have hmain : runEntries fileExists readPdf split now source_dir
      ((pdf_name, collection_name) :: rest) =
      (runEntries fileExists readPdf split now source_dir rest).map
        (fun evs => Event.warn ("Warning: " ++ (source_dir ++ "/" ++ pdf_name) ++
          " not found, skipping...") :: evs) := by
    simp only [runEntries]
    rw [if_neg hmiss]
    cases runEntries fileExists readPdf split now source_dir rest with
    | error e => rfl
    | ok evs2 => rfl
  refine ⟨hmain, ?_⟩
  intro evs h hnotin op hop
  rw [hmain] at h
  cases hr : runEntries fileExists readPdf split now source_dir rest with
  | error e => rw [hr] at h; simp [Except.map] at h
  | ok evs2 =>
    rw [hr] at h
    have hevs : evs = Event.warn ("Warning: " ++ (source_dir ++ "/" ++ pdf_name) ++
        " not found, skipping...") :: evs2 := by simpa [Except.map] using h.symm
    subst hevs
    simp only [List.mem_cons] at hop
    rcases hop with h1 | h2
    · simp at h1
    · intro heq
      exact hnotin (heq ▸ runEntries_store_names rest fileExists readPdf split
        now source_dir evs2 hr op h2)

/-- Concrete instance of C4: with every source file missing, the whole run
completes without raising and produces exactly the three warnings. -/
theorem claim_C4_witness :
    runEntries (fun _ => false) (fun _ => Except.ok []) (fun _ => []) "now" "src"
        PDF_COLLECTION_MAP =
      Except.ok
        [Event.warn "Warning: src/Python.pdf not found, skipping...",
         Event.warn "Warning: src/Java.pdf not found, skipping...",
         Event.warn "Warning: src/Javascript.pdf not found, skipping..."] := by
  have h := (claim_C4 (fun _ => false) (fun _ => Except.ok []) (fun _ => [])
    "now" "src" "Python.pdf" "python_book"
    [("Java.pdf", "java_book"), ("Javascript.pdf", "javascript_book")]
    (by decide)).1
  rw [show PDF_COLLECTION_MAP = ("Python.pdf", "python_book") ::
      [("Java.pdf", "java_book"), ("Javascript.pdf", "javascript_book")] from rfl, h]
  rfl

theorem applyOp_getOrCreate_preserve (s : Store) (name d cr : String) :
    ∃ s2, applyOp s (StoreOp.getOrCreate name d cr) = Except.ok s2 ∧
      (∀ cname recs, storeLookup s cname = some recs →
        storeLookup s2 cname = some recs) := by
  by_cases hex : (s.find? (fun p => p.1 == name)).isSome = true
  · refine ⟨s, ?_, fun _ _ h => h⟩
    simp [applyOp, hex]
  · refine ⟨s ++ [(name, [])], ?_,
      fun cname recs h => storeLookup_append_of_some s _ cname recs h⟩
    simp [applyOp, hex]

theorem applyOp_add_preserve (s : Store) (name : String) (ids : List String)
    (ms : List ChunkMeta) (ds : List String) (s2 : Store)
    (h : applyOp s (StoreOp.add name ids ms ds) = Except.ok s2) :
    ∀ cname recs, storeLookup s cname = some recs →
      ∃ extra, storeLookup s2 cname = some (recs ++ extra) := by
  intro cname recs hlk
  simp only [applyOp] at h
  split at h
  · exact Except.noConfusion h
  · rename_i recs0 heq
    split at h
    · have hs2 : s2 = storeReplace s name (recs0 ++ zipRecords ids ms ds) := by
        simpa using h.symm
      subst hs2
      by_cases hcn : cname = name
      · subst hcn
        have hr0 : recs0 = recs := by
          rw [hlk] at heq
          exact (Option.some.inj heq).symm
        subst hr0
        refine ⟨zipRecords ids ms ds, ?_⟩
        rw [storeLookup_replace_self, hlk]
        rfl
      · refine ⟨[], ?_⟩
        rw [storeLookup_replace_other s name cname _ hcn, hlk, List.append_nil]
    · exact Except.noConfusion h

theorem applyOp_add_clash (s : Store) (name i0 : String) (ids : List String)
    (ms : List ChunkMeta) (ds : List String) (recs : List StoredRecord)
    (hl : storeLookup s name = some recs)
    (hmem : recs.any (fun r => r.id == i0) = true) :
    ∃ e, applyOp s (StoreOp.add name (i0 :: ids) ms ds) = Except.error e := by
  have hcl : idsClash recs (i0 :: ids) = true := by
    simp [idsClash, List.any_cons, hmem]
  refine ⟨"DuplicateIDError", ?_⟩
  simp [applyOp, hl, hcl]

theorem applyEvents_fresh (c desc now : String) (ids : List String)
    (ms : List ChunkMeta) (ds : List String) (hnodup : List.Nodup ids) :
    applyEvents [] [Event.store (StoreOp.getOrCreate c desc now),
      Event.store (StoreOp.add c ids ms ds)] =
      Except.ok [(c, zipRecords ids ms ds)] := by
  have h1 : applyOp [] (StoreOp.getOrCreate c desc now) = Except.ok [(c, [])] := rfl
  have h2 : storeLookup [(c, [])] c = some [] := by simp [storeLookup]
  have hcond : (decide (List.Nodup ids) && !idsClash [] ids) = true := by
    rw [decide_eq_true hnodup, idsClash_nil]
    rfl
  have h3 : applyOp [(c, [])] (StoreOp.add c ids ms ds) =
      Except.ok [(c, zipRecords ids ms ds)] := by
    simp only [applyOp, h2, hcond]
    simp [storeReplace]
  simp only [applyEvents_cons_store, h1, h3]
  rfl

theorem applyEvents_rerun_error (c desc now i0 : String) (idr : List String)
    (m0 : ChunkMeta) (mr : List ChunkMeta) (d0 : String) (dr : List String) :
    ∃ e, applyEvents [(c, zipRecords (i0 :: idr) (m0 :: mr) (d0 :: dr))]
        [Event.store (StoreOp.getOrCreate c desc now),
         Event.store (StoreOp.add c (i0 :: idr) (m0 :: mr) (d0 :: dr))] =
      Except.error e := by
  have hlz : storeLookup [(c, zipRecords (i0 :: idr) (m0 :: mr) (d0 :: dr))] c =
      some (zipRecords (i0 :: idr) (m0 :: mr) (d0 :: dr)) := by
    simp [storeLookup]
  have hmem : (zipRecords (i0 :: idr) (m0 :: mr) (d0 :: dr)).any
      (fun r => r.id == i0) = true := by
    rw [show zipRecords (i0 :: idr) (m0 :: mr) (d0 :: dr) =
      ⟨i0, m0, d0⟩ :: zipRecords idr mr dr from rfl]
    simp [List.any_cons]
  obtain ⟨e, he⟩ := applyOp_add_clash _ c i0 idr (m0 :: mr) (d0 :: dr) _ hlz hmem
  refine ⟨e, ?_⟩
  have hg : applyOp [(c, zipRecords (i0 :: idr) (m0 :: mr) (d0 :: dr))]
      (StoreOp.getOrCreate c desc now) =
      Except.ok [(c, zipRecords (i0 :: idr) (m0 :: mr) (d0 :: dr))] := by
    simp [applyOp]
  rw [applyEvents_cons_store, hg]
  show applyEvents [(c, zipRecords (i0 :: idr) (m0 :: mr) (d0 :: dr))]
      [Event.store (StoreOp.add c (i0 :: idr) (m0 :: mr) (d0 :: dr))] =
    Except.error e
  rw [applyEvents_cons_store, he]

/-- Claim C5: the trace of `process_pdf` contains no delete or clear
operation, only get-or-create followed by one batch add, so applying it to
any store preserves every record already present; and re-applying the same
trace (a second ingestion run of the same document into the same collection)
raises a caller-visible duplicate-id error — re-running is not idempotent. -/
theorem claim_C5 (readPdf : String → Except String (List PageText))
    (split : String → List String) (now pdf_path collection_name : String)
    (pages : List PageText)
    (hr : readPdf pdf_path = Except.ok pages)
    (ht : ¬ pyStrip (extract_text_from_pdf pages) = "")
    (hc : split (extract_text_from_pdf pages) ≠ []) :
    ∀ evs, process_pdf readPdf split now pdf_path collection_name = Except.ok evs →
      (∀ e ∈ evs, isDeleteEvent e = false) ∧
      (∀ s s2, applyEvents s evs = Except.ok s2 →
        ∀ cname recs, storeLookup s cname = some recs →
          ∃ extra, storeLookup s2 cname = some (recs ++ extra)) ∧
      (∀ s1, applyEvents [] evs = Except.ok s1 →
        ∃ e, applyEvents s1 evs = Except.error e) := by
  intro evs hevs
  simp only [process_pdf, hr] at hevs
  rw [if_neg ht] at hevs
  have hform : evs =
      [Event.store (StoreOp.getOrCreate collection_name
        ("Code documentation collection for " ++ collection_name) now),
       Event.store (StoreOp.add collection_name
         ((List.range (split (extract_text_from_pdf pages)).length).map
           (chunkId collection_name))
         ((List.range (split (extract_text_from_pdf pages)).length).map
           (fun i => ChunkMeta.mk (basename pdf_path) i))
         (split (extract_text_from_pdf pages)))] := by
    simpa using hevs.symm
  subst hform
  refine ⟨?_, ?_, ?_⟩
  · intro e he
    simp only [List.mem_cons, List.mem_singleton] at he
    rcases he with h1 | h1 | h1
    · subst h1; rfl
    · subst h1; rfl
    · simp at h1
  · intro s s2 happ cname recs hlk
    rw [applyEvents_cons_store] at happ
    obtain ⟨s3, hs3, hpres⟩ := applyOp_getOrCreate_preserve s collection_name
      ("Code documentation collection for " ++ collection_name) now
    rw [hs3] at happ
    have happ2 : applyEvents s3
        [Event.store (StoreOp.add collection_name
          ((List.range (split (extract_text_from_pdf pages)).length).map
            (chunkId collection_name))
          ((List.range (split (extract_text_from_pdf pages)).length).map
            (fun i => ChunkMeta.mk (basename pdf_path) i))
          (split (extract_text_from_pdf pages)))] = Except.ok s2 := happ
    rw [applyEvents_cons_store] at happ2
    cases ha : applyOp s3 (StoreOp.add collection_name
        ((List.range (split (extract_text_from_pdf pages)).length).map
          (chunkId collection_name))
        ((List.range (split (extract_text_from_pdf pages)).length).map
          (fun i => ChunkMeta.mk (basename pdf_path) i))
        (split (extract_text_from_pdf pages))) with
    | error e => rw [ha] at happ2; exact Except.noConfusion happ2
    | ok s4 =>
      rw [ha] at happ2
      have hs4 : s4 = s2 := Except.ok.inj happ2
      subst hs4
      exact applyOp_add_preserve s3 collection_name _ _ _ s4 ha cname recs
        (hpres cname recs hlk)
  · intro s1 happ1
    have hnodup : List.Nodup
        ((List.range (split (extract_text_from_pdf pages)).length).map
          (chunkId collection_name)) :=
      (List.nodup_range _).map (chunkId_injective collection_name)
    have hfresh := applyEvents_fresh collection_name
      ("Code documentation collection for " ++ collection_name) now
      ((List.range (split (extract_text_from_pdf pages)).length).map
        (chunkId collection_name))
      ((List.range (split (extract_text_from_pdf pages)).length).map
        (fun i => ChunkMeta.mk (basename pdf_path) i))
      (split (extract_text_from_pdf pages)) hnodup
    have hs1 : s1 = [(collection_name, zipRecords
        ((List.range (split (extract_text_from_pdf pages)).length).map
          (chunkId collection_name))
        ((List.range (split (extract_text_from_pdf pages)).length).map
          (fun i => ChunkMeta.mk (basename pdf_path) i))
        (split (extract_text_from_pdf pages)))] :=
      Except.ok.inj (happ1.symm.trans hfresh)
    subst hs1
    cases hch : split (extract_text_from_pdf pages) with
    | nil => exact absurd hch hc
    | cons d0 dr =>
      obtain ⟨idr2, hids⟩ : ∃ idr2,
          (List.range (d0 :: dr).length).map
            (chunkId collection_name) = chunkId collection_name 0 :: idr2 := by
        rw [List.length_cons, List.range_succ_eq_map, List.map_cons]
        exact ⟨_, rfl⟩
      obtain ⟨mr2, hms⟩ : ∃ mr2,
          (List.range (d0 :: dr).length).map
            (fun i => ChunkMeta.mk (basename pdf_path) i) =
            ChunkMeta.mk (basename pdf_path) 0 :: mr2 := by
        rw [List.length_cons, List.range_succ_eq_map, List.map_cons]
        exact ⟨_, rfl⟩
      rw [hids, hms]
      exact applyEvents_rerun_error collection_name
        ("Code documentation collection for " ++ collection_name) now
        (chunkId collection_name 0) idr2
        (ChunkMeta.mk (basename pdf_path) 0) mr2 d0 dr

/-- Concrete instance of C5: ingesting the one-page document `"a"` twice
into `python_book` raises on the second run. -/
theorem claim_C5_witness :
    ∃ e, applyEvents
        [("python_book",
          [{ id := "python_book_chunk_0000",
             metadata := { source := "Python.pdf", chunk_index := 0 },
             document := "\n--- Page 1 ---\na" }])]
        [Event.store (StoreOp.getOrCreate "python_book"
          ("Code documentation collection for " ++ "python_book") "ts"),
         Event.store (StoreOp.add "python_book"
           ["python_book_chunk_0000"]
           [{ source := "Python.pdf", chunk_index := 0 }]
           ["\n--- Page 1 ---\na"])] = Except.error e := by
  have h := (claim_C5 (fun _ => Except.ok [[PChar.valid 'a']]) (fun t => [t]) "ts"
    "p/Python.pdf" "python_book" [[PChar.valid 'a']] rfl (by decide) (by simp))
    [Event.store (StoreOp.getOrCreate "python_book"
      ("Code documentation collection for " ++ "python_book") "ts"),
     Event.store (StoreOp.add "python_book"
       ["python_book_chunk_0000"]
       [{ source := "Python.pdf", chunk_index := 0 }]
       ["\n--- Page 1 ---\na"])] rfl
  exact h.2.2 _ rfl
